import Mathlib

/-!
# Verification of the MFM prime-generation pipeline

Shallow embedding of `src/Code/MFM_Prime_Generation.py` (Morillas-Fourier
Method supplementary code) and proofs about it.

Modelling decisions, recorded once here and referenced from the doc comments
below:

* All exact integer arithmetic of the source (`sympy.fibonacci`, list
  indexing, counting) is embedded over `ℕ`/`ℤ`.
* Floating-point values computed by the platform (the double `n**1.5`, the
  numpy cosines, the wall-clock readings) are taken as explicit inputs of the
  embedded functions, as exact rationals: a double has an exact rational
  value.  Assumptions on those inputs (e.g. accuracy of the platform `pow`)
  are stated as explicit hypotheses of the theorems.
* `sympy`'s floor division `Integer // Float` sympifies the float operand and
  floors the exact rational quotient (`Number.__divmod__` converts the
  `Float` operand with `Rational(other)` before dividing), so the division
  step is embedded as exact floor division by the rational value of the
  double denominator.
* numpy's global `RandomState` is embedded by explicit state passing: the
  state is the stream of `uniform(-2, 2)` draws it will produce, plus a
  cursor.
* `np.round` rounds half to even (banker's rounding); `npRound` below
  implements exactly that on `ℚ`.
* `sympy.isprime` is a deterministic exact primality test for the magnitudes
  arising here; it is embedded as decidable `Nat.Prime`.
-/

namespace MFM

/-- Rounding to the nearest integer, ties to even: the semantics of
`np.round` applied at source line 85 to the correction values. -/
def npRound (q : ℚ) : ℤ :=
  if q - ⌊q⌋ < 1/2 then ⌊q⌋
  else if 1/2 < q - ⌊q⌋ then ⌊q⌋ + 1
  else if 2 ∣ ⌊q⌋ then ⌊q⌋ else ⌊q⌋ + 1

/-- Embedding of `base_MFM` (source lines 56-65):
`if n < 1: return 2; F_n = fibonacci(n); denominator = n**1.5;
return int((F_n // denominator) + 2)`.
The float `denominator` is the input `d` (exact rational value of the double
the platform computes for `n**1.5`); the sympy floor division of the exact
Fibonacci integer by that float is exact floor division by `d` (see the
modelling notes in the file header). -/
def base_MFM (d : ℚ) (n : ℤ) : ℤ :=
  if n < 1 then 2
  else ⌊(Nat.fib n.toNat : ℚ) / d⌋ + 2

/-- Modelled from the spec (refinement target for claim C1, not code of the
repository): the ideal base value `floor(F_n / n^1.5) + 2` computed with the
Fibonacci number's full precision, i.e. the mathematical floor of the exact
real quotient.  Since `n^1.5 = sqrt(n^3)`, that floor equals
`Nat.sqrt (F_n^2 / n^3)`; the identity with the real-number floor is proved
in `base_value_exact_eq_real_floor` below. -/
def base_value_exact (n : ℤ) : ℤ :=
  if n < 1 then 2
  else (Nat.sqrt ((Nat.fib n.toNat) ^ 2 / n.toNat ^ 3) : ℤ) + 2

/-- Embedding of `is_prime_pythonic` (source lines 87-94):
`if x < 2: return False; return sympy.isprime(x)`.  `sympy.isprime` is exact
for these magnitudes and is embedded as decidable primality (the
kernel-friendly instance `Nat.decidablePrime1` is used so that concrete
values evaluate). -/
def is_prime_pythonic (x : ℤ) : Bool :=
  if x < 2 then false else @decide (Nat.Prime x.toNat) (Nat.decidablePrime1 x.toNat)

/-- State of numpy's ambient global `RandomState`, embedded as the stream of
`uniform(-2, 2)` draws it will produce (`draws`) together with a cursor
(`pos`).  The source never seeds or passes this state: `correction_fourier`
reads it implicitly through `np.random.uniform`. -/
structure NpRandom where
  draws : ℕ → ℚ
  pos : ℕ

/-- Embedding of `np.random.uniform(-2, 2, K)` (source line 78): returns the
next `K` draws of the ambient generator and the advanced generator state. -/
def np_uniform (st : NpRandom) (K : ℕ) : List ℚ × NpRandom :=
  ((List.range K).map fun k => st.draws (st.pos + k), ⟨st.draws, st.pos + K⟩)

/-- Oracle for the platform's floating-point cosine: `cosO k n N` is the
exact rational value of the double numpy computes for
`cos((2.0 * pi * k / N) * n)` (source lines 82-83). -/
abbrev CosOracle : Type := ℕ → ℤ → ℕ → ℚ

/-- Embedding of `correction_fourier(n_array, K)` (source lines 67-85).
`N = len(n_array)`; `coeffs = np.random.uniform(-2, 2, K)`; then for each
`k < K` the loop computes `freq = (2.0 * pi * k) / N` — which raises
`ZeroDivisionError` when `N = 0`, embedded as `none` — and accumulates
`coeffs[k] * cos(freq * n)`; finally `np.round` is applied.  The ambient
random state is passed explicitly and returned advanced. -/
def correction_fourier (cosO : CosOracle) (st : NpRandom) (n_array : List ℤ) (K : ℕ) :
    Option (List ℤ × NpRandom) :=
  let N := n_array.length
  let coeffs := (np_uniform st K).1
  if N = 0 ∧ 0 < K then none
  else some
    (n_array.map fun n => npRound (∑ k ∈ Finset.range K, coeffs.getD k 0 * cosO k n N),
     (np_uniform st K).2)

/-- Step 3 of the main loop (source line 118): elementwise
`base_vals[i] + int(correction_vals[i])` (the correction entries are already
integral after `np.round`, so `int` is exact). -/
def sequence_vals (base_vals corr : List ℤ) : List ℤ :=
  (List.zip base_vals corr).map fun p => p.1 + p.2

/-- One record of the `results` list built by `main` (source line 129):
`(K, prime_count, prime_fraction, elapsed)`.  `prime_fraction` is kept as the
exact rational value of the division `prime_count / float(N)`; `time_sec` is
the wall-clock reading, an external input. -/
structure ExperimentResult where
  K : ℕ
  prime_count : ℕ
  prime_fraction : ℚ
  time_sec : ℚ
deriving DecidableEq

/-- One iteration of the `for K in K_VALUES` body of `main` (source lines
107-123), excluding the clock: builds the base values (with the platform
`pow` results supplied by `powO`), the correction, the combined sequence and
the primality statistics.  Returns `none` where the Python raises: inside
`correction_fourier` when `N = 0 < K`, or at the division
`prime_count / float(len(sequence_vals))` when the sequence is empty. -/
def run_K (cosO : CosOracle) (powO : ℤ → ℚ) (n_values : List ℤ) (K : ℕ) (st : NpRandom) :
    Option ((ℕ × ℕ × ℚ) × NpRandom) :=
  let base_vals := n_values.map fun n => base_MFM (powO n) n
  match correction_fourier cosO st n_values K with
  | none => none
  | some (corr, st') =>
      let seq := sequence_vals base_vals corr
      let prime_flags := seq.map is_prime_pythonic
      let prime_count := (prime_flags.filter (fun b => b)).length
      if seq.length = 0 then none
      else some ((K, prime_count, (prime_count : ℚ) / (seq.length : ℚ)), st')

/-- The sweep of `main` over `K_VALUES` (source lines 107-129), threading the
ambient random state and recording one `ExperimentResult` per `K` in order;
`timeO i` is the wall-clock duration measured for the `i`-th run.  `none`
models an uncaught exception aborting the sweep. -/
def MFM_sweep (cosO : CosOracle) (powO : ℤ → ℚ) (timeO : ℕ → ℚ) (n_values : List ℤ) :
    List ℕ → NpRandom → ℕ → Option (List ExperimentResult)
  | [], _, _ => some []
  | K :: Ks, st, i =>
    match run_K cosO powO n_values K st with
    | none => none
    | some (r, st') =>
      match MFM_sweep cosO powO timeO n_values Ks st' (i + 1) with
      | none => none
      | some rs => some (⟨r.1, r.2.1, r.2.2, timeO i⟩ :: rs)

/-- Embedding of `np.arange(1, N_MAX + 1)` (source line 105): the integers
`1, …, N_MAX`, empty when `N_MAX < 1`. -/
def n_values_arr (N_MAX : ℤ) : List ℤ :=
  (List.range N_MAX.toNat).map fun i : ℕ => (i : ℤ) + 1

/-- Embedding of the computational core of `main` (source lines 99-129): the
sweep over the configured `K_values` on the index range `1..N_MAX`, producing
the ordered `results` list handed to the export/report collaborators.
`some rs` means the sweep completes with results `rs`; `none` means an
uncaught exception. -/
def MFM_main (cosO : CosOracle) (powO : ℤ → ℚ) (timeO : ℕ → ℚ) (N_MAX : ℤ)
    (K_values : List ℕ) (st : NpRandom) : Option (List ExperimentResult) :=
  MFM_sweep cosO powO timeO (n_values_arr N_MAX) K_values st 0

/-- Accuracy assumption on the platform's double `n**1.5`, used by the
base-value theorems.  IEEE 754 mandates `pow(1, y) = 1` exactly; for
`n = 36`, `36**1.5 = 216` is exactly representable and every faithful libm
`pow` returns it (these are the two indices `≤ 60` whose exact quotient
`F_n / n^1.5` is an integer, where no error band can work).  For all other
`n`, we only assume relative error at most `2^-48` — about 16 ulp, far
weaker than any real double-precision `pow` — phrased squared so that the
proposition is rational-decidable: `(1 - 2^-48)^2 n^3 ≤ d^2 ≤ (1 + 2^-48)^2 n^3`. -/
def PowApprox (n : ℤ) (d : ℚ) : Prop :=
  if n = 1 then d = 1
  else if n = 36 then d = 216
  else 0 < d ∧ (2 ^ 48 - 1 : ℚ) ^ 2 * ((n.toNat ^ 3 : ℕ) : ℚ) ≤ (2 ^ 48 * d) ^ 2 ∧
    (2 ^ 48 * d) ^ 2 ≤ (2 ^ 48 + 1 : ℚ) ^ 2 * ((n.toNat ^ 3 : ℕ) : ℚ)

instance (n : ℤ) (d : ℚ) : Decidable (PowApprox n d) := by
  unfold PowApprox
  exact inferInstance

/-- A finite double-precision value: a 53-bit significand times a power of
two.  Every value the platform can possibly compute for `200**1.5` has this
shape. -/
def IsDouble53 (d : ℚ) : Prop :=
  ∃ m e : ℤ, m.natAbs < 2 ^ 53 ∧ d = (m : ℚ) * 2 ^ e

/-- Concrete cosine oracle used in witnesses and counterexamples. -/
def cosO0 : CosOracle := fun _ _ _ => 1

/-- Concrete platform-`pow` oracle used in witnesses: every index gets
denominator 1 (only evaluated where a hypothesis permits it). -/
def powO0 : ℤ → ℚ := fun _ => 1

/-- Concrete wall-clock oracle used in witnesses. -/
def timeO0 : ℕ → ℚ := fun _ => 0

/-- Ambient random state whose draws are all `0`. -/
def st0 : NpRandom := ⟨fun _ => 0, 0⟩

/-- Ambient random state whose draws are all `1`. -/
def st1 : NpRandom := ⟨fun _ => 1, 0⟩

/-! ## Helper lemmas about the base value -/

/-- Floor of a quotient of a natural by a positive rational, characterised by
two linear inequalities. -/
lemma floor_div_eq (F : ℕ) (d : ℚ) (q : ℕ) (hd : 0 < d)
    (h1 : (q : ℚ) * d ≤ F) (h2 : (F : ℚ) < ((q : ℚ) + 1) * d) :
    ⌊(F : ℚ) / d⌋ = (q : ℤ) := by
  rw [Int.floor_eq_iff]
  constructor
  · rw [le_div_iff₀ hd]
    exact_mod_cast h1
  · rw [div_lt_iff₀ hd]
    push_cast
    exact_mod_cast h2

/-- The exact floor `⌊F / √B⌋` (for naturals `F`, `B` with `B > 0`) is
`Nat.sqrt (F² / B)`: `q ≤ F / √B ↔ q²·B ≤ F² ↔ q² ≤ F²/B`. -/
lemma nat_sqrt_div_le (F B q : ℕ) (hB : 0 < B) (h : q ^ 2 * B ≤ F ^ 2) :
    q ≤ Nat.sqrt (F ^ 2 / B) := by
  rw [Nat.le_sqrt]
  rw [Nat.le_div_iff_mul_le hB]
  calc q * q * B = q ^ 2 * B := by ring
    _ ≤ F ^ 2 := h

lemma nat_sqrt_div_lt (F B q : ℕ) (hB : 0 < B) (h : F ^ 2 < (q + 1) ^ 2 * B) :
    Nat.sqrt (F ^ 2 / B) < q + 1 := by
  rw [Nat.sqrt_lt]
  rw [Nat.div_lt_iff_lt_mul hB]
  calc F ^ 2 < (q + 1) ^ 2 * B := h
    _ = (q + 1) * (q + 1) * B := by ring

/-- Workhorse for claims C1 and C8: if the decidable precision checks `N1`,
`N2` hold for an index `n ∉ {1, 36}` and a candidate value `q`, then for
every denominator admitted by `PowApprox` the code's base value agrees with
the exact formula (both equal `q + 2`). -/
lemma base_MFM_eq_exact_of (n : ℤ) (q : ℕ) (h2 : 2 ≤ n) (h36 : n ≠ 36)
    (N1 : q ^ 2 * 281474976710657 ^ 2 * n.toNat ^ 3 ≤ (Nat.fib n.toNat) ^ 2 * 2 ^ 96)
    (N2 : (Nat.fib n.toNat) ^ 2 * 2 ^ 96 < (q + 1) ^ 2 * 281474976710655 ^ 2 * n.toNat ^ 3)
    (d : ℚ) (hd : PowApprox n d) :
    base_MFM d n = base_value_exact n := by
  have hn1 : n ≠ 1 := by omega
  rw [PowApprox, if_neg hn1, if_neg h36] at hd
  obtain ⟨hdpos, hlo, hhi⟩ := hd
  have elo : (2 ^ 48 - 1 : ℚ) = 281474976710655 := by norm_num
  have ehi : (2 ^ 48 + 1 : ℚ) = 281474976710657 := by norm_num
  rw [elo] at hlo
  rw [ehi] at hhi
  have hBpos : 0 < n.toNat ^ 3 := by
    have : 0 < n.toNat := by omega
    positivity
  set F := Nat.fib n.toNat with hF
  set B := n.toNat ^ 3 with hB
  -- the exact value is q
  have hsqrt : Nat.sqrt (F ^ 2 / B) = q := by
    have hle : q ≤ Nat.sqrt (F ^ 2 / B) := by
      apply nat_sqrt_div_le F B q hBpos
      have step : q ^ 2 * B * 2 ^ 96 ≤ F ^ 2 * 2 ^ 96 := by
        calc q ^ 2 * B * 2 ^ 96 = q ^ 2 * B * 2 ^ 96 := rfl
          _ ≤ q ^ 2 * B * 281474976710657 ^ 2 :=
            Nat.mul_le_mul (le_refl _) (by norm_num)
          _ = q ^ 2 * 281474976710657 ^ 2 * B := by ring
          _ ≤ F ^ 2 * 2 ^ 96 := N1
      exact Nat.le_of_mul_le_mul_right step (by positivity)
    have hlt : Nat.sqrt (F ^ 2 / B) < q + 1 := by
      apply nat_sqrt_div_lt F B q hBpos
      have step : F ^ 2 * 2 ^ 96 < (q + 1) ^ 2 * B * 2 ^ 96 := by
        calc F ^ 2 * 2 ^ 96 < (q + 1) ^ 2 * 281474976710655 ^ 2 * B := N2
          _ = (q + 1) ^ 2 * B * 281474976710655 ^ 2 := by ring
          _ ≤ (q + 1) ^ 2 * B * 2 ^ 96 := Nat.mul_le_mul (le_refl _) (by norm_num)
      exact Nat.lt_of_mul_lt_mul_right step
    omega
  -- the code value is also q
  have N1Q : (q : ℚ) ^ 2 * 281474976710657 ^ 2 * (B : ℚ) ≤ (F : ℚ) ^ 2 * 2 ^ 96 := by
    exact_mod_cast N1
  have N2Q : (F : ℚ) ^ 2 * 2 ^ 96 < ((q : ℚ) + 1) ^ 2 * 281474976710655 ^ 2 * (B : ℚ) := by
    exact_mod_cast N2
  have hfloor : ⌊(F : ℚ) / d⌋ = (q : ℤ) := by
    apply floor_div_eq F d q hdpos
    · -- q * d ≤ F, via squares
      have hsq : ((q : ℚ) * d) ^ 2 ≤ ((F : ℚ)) ^ 2 := by
        have step1 : (q : ℚ) ^ 2 * (2 ^ 48 * d) ^ 2 ≤
            (q : ℚ) ^ 2 * ((281474976710657 : ℚ) ^ 2 * B) := by
          have hq2 : (0 : ℚ) ≤ (q : ℚ) ^ 2 := by positivity
          exact mul_le_mul_of_nonneg_left hhi hq2
        have step2 : (q : ℚ) ^ 2 * ((281474976710657 : ℚ) ^ 2 * B) ≤ (F : ℚ) ^ 2 * 2 ^ 96 := by
          calc (q : ℚ) ^ 2 * ((281474976710657 : ℚ) ^ 2 * B)
              = (q : ℚ) ^ 2 * 281474976710657 ^ 2 * B := by ring
            _ ≤ (F : ℚ) ^ 2 * 2 ^ 96 := N1Q
        have hchain : ((q : ℚ) * d) ^ 2 * 2 ^ 96 ≤ (F : ℚ) ^ 2 * 2 ^ 96 := by
          calc ((q : ℚ) * d) ^ 2 * 2 ^ 96 = (q : ℚ) ^ 2 * (2 ^ 48 * d) ^ 2 := by ring
            _ ≤ (q : ℚ) ^ 2 * ((281474976710657 : ℚ) ^ 2 * B) := step1
            _ ≤ (F : ℚ) ^ 2 * 2 ^ 96 := step2
        have h96 : (0 : ℚ) < 2 ^ 96 := by positivity
        exact le_of_mul_le_mul_right hchain h96
      exact (pow_le_pow_iff_left₀ (mul_nonneg (Nat.cast_nonneg q) hdpos.le)
        (Nat.cast_nonneg F) two_ne_zero).mp hsq
    · -- F < (q + 1) * d, via squares
      have hsq : ((F : ℚ)) ^ 2 < (((q : ℚ) + 1) * d) ^ 2 := by
        have step1 : ((q : ℚ) + 1) ^ 2 * ((281474976710655 : ℚ) ^ 2 * B) ≤
            ((q : ℚ) + 1) ^ 2 * (2 ^ 48 * d) ^ 2 := by
          have hq2 : (0 : ℚ) ≤ ((q : ℚ) + 1) ^ 2 := by positivity
          exact mul_le_mul_of_nonneg_left hlo hq2
        have hchain : (F : ℚ) ^ 2 * 2 ^ 96 < (((q : ℚ) + 1) * d) ^ 2 * 2 ^ 96 := by
          calc (F : ℚ) ^ 2 * 2 ^ 96 < ((q : ℚ) + 1) ^ 2 * 281474976710655 ^ 2 * B := N2Q
            _ = ((q : ℚ) + 1) ^ 2 * ((281474976710655 : ℚ) ^ 2 * B) := by ring
            _ ≤ ((q : ℚ) + 1) ^ 2 * (2 ^ 48 * d) ^ 2 := step1
            _ = (((q : ℚ) + 1) * d) ^ 2 * 2 ^ 96 := by ring
        have h96 : (0 : ℚ) < 2 ^ 96 := by positivity
        exact lt_of_mul_lt_mul_right hchain h96.le
      have hFnn : (0 : ℚ) ≤ (F : ℚ) := Nat.cast_nonneg F
      have hqd : (0 : ℚ) ≤ ((q : ℚ) + 1) * d := by positivity
      exact (pow_lt_pow_iff_left₀ hFnn hqd two_ne_zero).mp hsq
  have hnlt : ¬ n < 1 := by omega
  rw [base_MFM, base_value_exact, if_neg hnlt, if_neg hnlt, ← hF, ← hB, hfloor, hsqrt]

/-- For naturals `F`, `B` with `B > 0`, the floor of the real quotient
`F / √B` is `Nat.sqrt (F² / B)` (with `/` the natural floor division). -/
lemma real_floor_div_sqrt (F B : ℕ) (hB : 0 < B) :
    ⌊(F : ℝ) / Real.sqrt B⌋ = (Nat.sqrt (F ^ 2 / B) : ℤ) := by
  have hBR : (0 : ℝ) < (B : ℝ) := by exact_mod_cast hB
  have hsB : 0 < Real.sqrt B := Real.sqrt_pos.mpr hBR
  set s := Nat.sqrt (F ^ 2 / B) with hs
  have h1 : s ^ 2 * B ≤ F ^ 2 := by
    calc s ^ 2 * B ≤ (F ^ 2 / B) * B := Nat.mul_le_mul_right B (Nat.sqrt_le' (F ^ 2 / B))
      _ ≤ F ^ 2 := Nat.div_mul_le_self _ _
  have h2 : F ^ 2 < (s + 1) ^ 2 * B := by
    have hlt : F ^ 2 / B < (s + 1) * (s + 1) := by
      have := Nat.lt_succ_sqrt' (F ^ 2 / B)
      calc F ^ 2 / B < (s + 1) ^ 2 := this
        _ = (s + 1) * (s + 1) := by ring
    calc F ^ 2 < (s + 1) * (s + 1) * B := (Nat.div_lt_iff_lt_mul hB).mp hlt
      _ = (s + 1) ^ 2 * B := by ring
  rw [Int.floor_eq_iff]
  have h1R : ((s : ℝ)) ^ 2 * B ≤ ((F : ℝ)) ^ 2 := by exact_mod_cast h1
  have h2R : ((F : ℝ)) ^ 2 < ((s : ℝ) + 1) ^ 2 * B := by exact_mod_cast h2
  constructor
  · rw [le_div_iff₀ hsB]
    push_cast
    have hss : ((s : ℝ)) * Real.sqrt B = Real.sqrt ((s : ℝ) ^ 2 * B) := by
      rw [Real.sqrt_mul (by positivity), Real.sqrt_sq (by positivity)]
    rw [hss]
    have hmono : Real.sqrt ((s : ℝ) ^ 2 * B) ≤ Real.sqrt (((F : ℝ)) ^ 2) :=
      Real.sqrt_le_sqrt h1R
    rwa [Real.sqrt_sq (by positivity)] at hmono
  · rw [div_lt_iff₀ hsB]
    push_cast
    have hss : ((s : ℝ) + 1) * Real.sqrt B = Real.sqrt (((s : ℝ) + 1) ^ 2 * B) := by
      rw [Real.sqrt_mul (by positivity), Real.sqrt_sq (by positivity)]
    rw [hss]
    have hmono : Real.sqrt (((F : ℝ)) ^ 2) < Real.sqrt (((s : ℝ) + 1) ^ 2 * B) :=
      (Real.sqrt_lt_sqrt_iff (by positivity)).mpr h2R
    rwa [Real.sqrt_sq (by positivity)] at hmono

/-- Bridge between the computable spec-side definition `base_value_exact`
and the spec's words: for `n ≥ 1` it is the mathematical floor of the exact
real quotient `F_n / n^1.5` (real power), plus 2. -/
theorem base_value_exact_eq_real_floor (n : ℤ) (h : 1 ≤ n) :
    base_value_exact n = ⌊(Nat.fib n.toNat : ℝ) / (n : ℝ) ^ (1.5 : ℝ)⌋ + 2 := by
  have htn : ((n.toNat : ℤ)) = n := Int.toNat_of_nonneg (by omega)
  have hcast : ((n.toNat : ℝ)) = (n : ℝ) := by exact_mod_cast htn
  have hn0 : (0 : ℝ) ≤ (n : ℝ) := by
    have : (0 : ℤ) ≤ n := by omega
    exact_mod_cast this
  have hrpow : ((n : ℝ)) ^ (1.5 : ℝ) = Real.sqrt (((n.toNat ^ 3 : ℕ) : ℝ)) := by
    have h15 : (1.5 : ℝ) = ((3 : ℕ) : ℝ) * (1 / 2 : ℝ) := by norm_num
    rw [h15, Real.rpow_mul hn0, Real.rpow_natCast, ← Real.sqrt_eq_rpow]
    congr 1
    push_cast [hcast]
    ring
  have hB : 0 < n.toNat ^ 3 := by
    have : 0 < n.toNat := by omega
    positivity
  rw [hrpow, real_floor_div_sqrt _ _ hB, base_value_exact, if_neg (by omega)]

/-- Evaluation lemma for `Nat.sqrt` that avoids kernel reduction of its
well-founded recursion: characterise the value by the two bounding squares. -/
lemma sqrt_eq_of (q M : ℕ) (h1 : q * q ≤ M) (h2 : M < (q + 1) * (q + 1)) :
    Nat.sqrt M = q :=
  (Nat.eq_sqrt.mpr ⟨h1, h2⟩).symm

/-- Index 1: the platform computes `1**1.5 = 1.0` exactly (IEEE 754 mandates
`pow(1, y) = 1`), and `floor(F_1 / 1) + 2 = 3` on both sides. -/
lemma case_one (d : ℚ) (hd : PowApprox 1 d) : base_MFM d 1 = base_value_exact 1 := by
  rw [PowApprox, if_pos rfl] at hd
  subst hd
  rw [base_MFM, base_value_exact, if_neg (by decide), if_neg (by decide)]
  norm_num [show Nat.fib (1 : ℤ).toNat = 1 from rfl,
    sqrt_eq_of 1 (Nat.fib (1 : ℤ).toNat ^ 2 / (1 : ℤ).toNat ^ 3) (by decide) (by decide)]

/-- Index 36: `F_36 = 14930352 = 216 * 69122` is exactly divisible by
`36**1.5 = 216`, so the only denominator consistent with the code's exact
quotient is `216` itself, which every faithful `pow` produces since it is
exactly representable. -/
lemma case_thirtysix (d : ℚ) (hd : PowApprox 36 d) :
    base_MFM d 36 = base_value_exact 36 := by
  rw [PowApprox, if_neg (by decide), if_pos rfl] at hd
  subst hd
  rw [base_MFM, base_value_exact, if_neg (by decide), if_neg (by decide)]
  rw [show Nat.fib (36 : ℤ).toNat = 14930352 from rfl]
  rw [sqrt_eq_of 69122 (14930352 ^ 2 / (36 : ℤ).toNat ^ 3) (by decide) (by decide)]
  norm_num

/-- Claim C1 (amended).  The original claim — the code's base value equals
the full-precision `floor(F_n / n^1.5) + 2` for every `n ≥ 1` — fails for
large `n` (see `C1_base_value_full_precision_cex`): the code divides by the
double `n**1.5`, whose 53-bit precision cannot carry the quotient once `F_n`
is large.  Amended claim, proved here: for `1 ≤ n ≤ 60`, for every
denominator the platform `pow` can produce (`PowApprox`), the code's value
`base_MFM` agrees exactly with the spec's full-precision value
`base_value_exact`. -/
theorem C1_base_value_full_precision (n : ℤ) (d : ℚ) (h1 : 1 ≤ n) (h60 : n ≤ 60)
    (hd : PowApprox n d) : base_MFM d n = base_value_exact n := by
  interval_cases n
  · exact case_one d hd
  · exact base_MFM_eq_exact_of _ 0 (by decide) (by decide) (by decide) (by decide) d hd
  · exact base_MFM_eq_exact_of _ 0 (by decide) (by decide) (by decide) (by decide) d hd
  · exact base_MFM_eq_exact_of _ 0 (by decide) (by decide) (by decide) (by decide) d hd
  · exact base_MFM_eq_exact_of _ 0 (by decide) (by decide) (by decide) (by decide) d hd
  · exact base_MFM_eq_exact_of _ 0 (by decide) (by decide) (by decide) (by decide) d hd
  · exact base_MFM_eq_exact_of _ 0 (by decide) (by decide) (by decide) (by decide) d hd
  · exact base_MFM_eq_exact_of _ 0 (by decide) (by decide) (by decide) (by decide) d hd
  · exact base_MFM_eq_exact_of _ 1 (by decide) (by decide) (by decide) (by decide) d hd
  · exact base_MFM_eq_exact_of _ 1 (by decide) (by decide) (by decide) (by decide) d hd
  · exact base_MFM_eq_exact_of _ 2 (by decide) (by decide) (by decide) (by decide) d hd
  · exact base_MFM_eq_exact_of _ 3 (by decide) (by decide) (by decide) (by decide) d hd
  · exact base_MFM_eq_exact_of _ 4 (by decide) (by decide) (by decide) (by decide) d hd
  · exact base_MFM_eq_exact_of _ 7 (by decide) (by decide) (by decide) (by decide) d hd
  · exact base_MFM_eq_exact_of _ 10 (by decide) (by decide) (by decide) (by decide) d hd
  · exact base_MFM_eq_exact_of _ 15 (by decide) (by decide) (by decide) (by decide) d hd
  · exact base_MFM_eq_exact_of _ 22 (by decide) (by decide) (by decide) (by decide) d hd
  · exact base_MFM_eq_exact_of _ 33 (by decide) (by decide) (by decide) (by decide) d hd
  · exact base_MFM_eq_exact_of _ 50 (by decide) (by decide) (by decide) (by decide) d hd
  · exact base_MFM_eq_exact_of _ 75 (by decide) (by decide) (by decide) (by decide) d hd
  · exact base_MFM_eq_exact_of _ 113 (by decide) (by decide) (by decide) (by decide) d hd
  · exact base_MFM_eq_exact_of _ 171 (by decide) (by decide) (by decide) (by decide) d hd
  · exact base_MFM_eq_exact_of _ 259 (by decide) (by decide) (by decide) (by decide) d hd
  · exact base_MFM_eq_exact_of _ 394 (by decide) (by decide) (by decide) (by decide) d hd
  · exact base_MFM_eq_exact_of _ 600 (by decide) (by decide) (by decide) (by decide) d hd
  · exact base_MFM_eq_exact_of _ 915 (by decide) (by decide) (by decide) (by decide) d hd
  · exact base_MFM_eq_exact_of _ 1400 (by decide) (by decide) (by decide) (by decide) d hd
  · exact base_MFM_eq_exact_of _ 2145 (by decide) (by decide) (by decide) (by decide) d hd
  · exact base_MFM_eq_exact_of _ 3292 (by decide) (by decide) (by decide) (by decide) d hd
  · exact base_MFM_eq_exact_of _ 5063 (by decide) (by decide) (by decide) (by decide) d hd
  · exact base_MFM_eq_exact_of _ 7799 (by decide) (by decide) (by decide) (by decide) d hd
  · exact base_MFM_eq_exact_of _ 12033 (by decide) (by decide) (by decide) (by decide) d hd
  · exact base_MFM_eq_exact_of _ 18592 (by decide) (by decide) (by decide) (by decide) d hd
  · exact base_MFM_eq_exact_of _ 28765 (by decide) (by decide) (by decide) (by decide) d hd
  · exact base_MFM_eq_exact_of _ 44563 (by decide) (by decide) (by decide) (by decide) d hd
  · exact case_thirtysix d hd
  · exact base_MFM_eq_exact_of _ 107338 (by decide) (by decide) (by decide) (by decide) d hd
  · exact base_MFM_eq_exact_of _ 166866 (by decide) (by decide) (by decide) (by decide) d hd
  · exact base_MFM_eq_exact_of _ 259678 (by decide) (by decide) (by decide) (by decide) d hd
  · exact base_MFM_eq_exact_of _ 404511 (by decide) (by decide) (by decide) (by decide) d hd
  · exact base_MFM_eq_exact_of _ 630713 (by decide) (by decide) (by decide) (by decide) d hd
  · exact base_MFM_eq_exact_of _ 984287 (by decide) (by decide) (by decide) (by decide) d hd
  · exact base_MFM_eq_exact_of _ 1537378 (by decide) (by decide) (by decide) (by decide) d hd
  · exact base_MFM_eq_exact_of _ 2403212 (by decide) (by decide) (by decide) (by decide) d hd
  · exact base_MFM_eq_exact_of _ 3759586 (by decide) (by decide) (by decide) (by decide) d hd
  · exact base_MFM_eq_exact_of _ 5885856 (by decide) (by decide) (by decide) (by decide) d hd
  · exact base_MFM_eq_exact_of _ 9221197 (by decide) (by decide) (by decide) (by decide) d hd
  · exact base_MFM_eq_exact_of _ 14456390 (by decide) (by decide) (by decide) (by decide) d hd
  · exact base_MFM_eq_exact_of _ 22678548 (by decide) (by decide) (by decide) (by decide) d hd
  · exact base_MFM_eq_exact_of _ 35599344 (by decide) (by decide) (by decide) (by decide) d hd
  · exact base_MFM_eq_exact_of _ 55915136 (by decide) (by decide) (by decide) (by decide) d hd
  · exact base_MFM_eq_exact_of _ 87875392 (by decide) (by decide) (by decide) (by decide) d hd
  · exact base_MFM_eq_exact_of _ 138180298 (by decide) (by decide) (by decide) (by decide) d hd
  · exact base_MFM_eq_exact_of _ 217398694 (by decide) (by decide) (by decide) (by decide) d hd
  · exact base_MFM_eq_exact_of _ 342208803 (by decide) (by decide) (by decide) (by decide) d hd
  · exact base_MFM_eq_exact_of _ 538940488 (by decide) (by decide) (by decide) (by decide) d hd
  · exact base_MFM_eq_exact_of _ 849176972 (by decide) (by decide) (by decide) (by decide) d hd
  · exact base_MFM_eq_exact_of _ 1338616401 (by decide) (by decide) (by decide) (by decide) d hd
  · exact base_MFM_eq_exact_of _ 2111094892 (by decide) (by decide) (by decide) (by decide) d hd
  · exact base_MFM_eq_exact_of _ 3330784517 (by decide) (by decide) (by decide) (by decide) d hd

/-- Witness for `C1_base_value_full_precision` at `n = 1`, `d = 1`. -/
theorem C1_base_value_full_precision_witness :
    (1 : ℤ) ≤ 1 ∧ (1 : ℤ) ≤ 60 ∧ PowApprox 1 1 ∧ base_MFM 1 1 = base_value_exact 1 :=
  ⟨le_refl 1, by norm_num, by decide,
    C1_base_value_full_precision 1 1 (le_refl 1) (by norm_num) (by decide)⟩

set_option maxRecDepth 100000

/-- Any double-precision value that is at least `2048` lies on the grid of
multiples of `2 ^ -41` (doubles of that magnitude have their unit in the
last place no finer than `2 ^ -41`). -/
lemma double_grid (d : ℚ) (hdbl : IsDouble53 d) (hlow : 2048 ≤ d) :
    ∃ j : ℤ, d = (j : ℚ) / 2 ^ 41 := by
  obtain ⟨m, e, hm, rfl⟩ := hdbl
  by_cases he : -41 ≤ e
  · refine ⟨m * 2 ^ (e + 41).toNat, ?_⟩
    have h41 : ((e + 41).toNat : ℤ) = e + 41 := Int.toNat_of_nonneg (by omega)
    have hpow : ((2 : ℚ) ^ (e + 41).toNat) = (2 : ℚ) ^ ((e + 41 : ℤ)) := by
      rw [← zpow_natCast (2 : ℚ) (e + 41).toNat, h41]
    push_cast
    rw [hpow, zpow_add₀ (two_ne_zero) e 41]
    have h241 : ((2 : ℚ) ^ (41 : ℤ)) = (2 : ℚ) ^ (41 : ℕ) := zpow_natCast 2 41
    rw [h241]
    field_simp
    ring
  · exfalso
    push_neg at he
    have he' : e ≤ -42 := by omega
    have h2e : (2 : ℚ) ^ e ≤ 2 ^ (-42 : ℤ) := zpow_le_zpow_right₀ one_le_two he'
    have hmabs : ((m : ℚ)) ≤ 2 ^ 53 - 1 := by
      have hmz : (m : ℤ) ≤ 2 ^ 53 - 1 := by omega
      exact_mod_cast hmz
    have hpos : (0 : ℚ) < 2 ^ e := zpow_pos (by norm_num) e
    have hbound : (m : ℚ) * 2 ^ e ≤ (2 ^ 53 - 1) * 2 ^ (-42 : ℤ) :=
      mul_le_mul hmabs h2e hpos.le (by norm_num)
    have hlt : ((2 : ℚ) ^ 53 - 1) * 2 ^ (-42 : ℤ) < 2048 := by
      rw [zpow_neg, show ((2 : ℚ) ^ (42 : ℤ)) = (2 : ℚ) ^ (42 : ℕ) from zpow_natCast 2 42]
      rw [mul_inv_lt_iff₀ (by positivity)]
      norm_num
    linarith

/-- At `n = 200` the code's base value cannot equal the full-precision
`floor(F_200 / 200^1.5) + 2`, whatever double the platform computes for
`200**1.5`: `200^1.5 = sqrt(8000000)` is irrational, every double of that
magnitude is a multiple of `2 ^ -41`, and `F_200` is so large that dividing
by the nearest grid points on either side of `sqrt(8000000)` already moves
the floor by about `10^22`. -/
lemma base_MFM_200_ne_exact (d : ℚ) (hdpos : 0 < d) (hdbl : IsDouble53 d) :
    base_MFM d 200 ≠ base_value_exact 200 := by
  intro heq
  have hfib : Nat.fib (200 : ℤ).toNat = 280571172992510140037611932413038677189525 := by rfl
  have hexact : base_value_exact 200 = (99196889514233919985924401243937545060 : ℤ) + 2 := by
    rw [base_value_exact, if_neg (by decide)]
    rw [sqrt_eq_of 99196889514233919985924401243937545060
      (Nat.fib (200 : ℤ).toNat ^ 2 / (200 : ℤ).toNat ^ 3) (by decide) (by decide)]
    norm_num
  rw [base_MFM, if_neg (by decide), hfib, hexact] at heq
  have hfloor : ⌊((280571172992510140037611932413038677189525 : ℕ) : ℚ) / d⌋ =
      (99196889514233919985924401243937545060 : ℤ) := by omega
  rw [Int.floor_eq_iff] at hfloor
  obtain ⟨hge, hlt⟩ := hfloor
  push_cast at hge hlt
  have hge' : (99196889514233919985924401243937545060 : ℚ) * d ≤
      280571172992510140037611932413038677189525 := by
    rw [← le_div_iff₀ hdpos]
    exact hge
  have hlt' : (280571172992510140037611932413038677189525 : ℚ) <
      (99196889514233919985924401243937545060 + 1) * d := by
    rw [← div_lt_iff₀ hdpos]
    exact hlt
  -- d is trapped just above 2828, hence on the 2 ^ -41 grid
  have h2828 : (2828 : ℚ) ≤ d := by nlinarith
  obtain ⟨j, rfl⟩ := double_grid d hdbl (by linarith)
  have hj41 : (0 : ℚ) < (2 : ℚ) ^ (41 : ℕ) := by positivity
  -- clear the denominator and move to ℤ
  have hgeZ : (99196889514233919985924401243937545060 : ℤ) * j ≤
      280571172992510140037611932413038677189525 * 2 ^ 41 := by
    have : (99196889514233919985924401243937545060 : ℚ) * j ≤
        280571172992510140037611932413038677189525 * 2 ^ 41 := by
      rw [mul_div_assoc'] at hge'
      rw [div_le_iff₀ hj41] at hge'
      linarith
    exact_mod_cast this
  have hltZ : (280571172992510140037611932413038677189525 : ℤ) * 2 ^ 41 <
      (99196889514233919985924401243937545060 + 1) * j := by
    have : (280571172992510140037611932413038677189525 : ℚ) * 2 ^ 41 <
        (99196889514233919985924401243937545060 + 1) * j := by
      rw [mul_div_assoc'] at hlt'
      rw [lt_div_iff₀ hj41] at hlt'
      linarith
    exact_mod_cast this
  -- but both sides of the grid point 6219777023950949 are excluded
  have hA : j ≤ 6219777023950949 ∨ 6219777023950950 ≤ j := by omega
  rcases hA with hA | hA
  · nlinarith
  · nlinarith

/-- The values `6219777023950949 * 2 ^ -41` and `6219777023950950 * 2 ^ -41`
are 53-bit doubles: they are the two consecutive doubles bracketing
`sqrt(8000000)`, so any faithful platform `pow` returns one of them for
`200**1.5`. -/
lemma grid_neighbor_is_double (m : ℤ) (hm : m.natAbs < 2 ^ 53) :
    IsDouble53 ((m : ℚ) / 2 ^ 41) := by
  refine ⟨m, -41, hm, ?_⟩
  rw [zpow_neg, show ((2 : ℚ) ^ (41 : ℤ)) = (2 : ℚ) ^ (41 : ℕ) from zpow_natCast 2 41]
  rw [div_eq_mul_inv]

/-- Claim C1, counterexample at `n = 200`.  The doubles adjacent to the
irrational `200^1.5 = sqrt(8000000) = 2828.4271…` are
`6219777023950949 / 2^41` and `6219777023950950 / 2^41`; any faithful
platform `pow` returns one of the two for `200**1.5`, and with either
denominator the code's base value differs from the full-precision
`floor(F_200 / 200^1.5) + 2` (the surrounding lemma
`base_MFM_200_ne_exact` extends this to every positive 53-bit double
whatsoever, and `base_value_exact_eq_real_floor` identifies
`base_value_exact` with the mathematical floor of the exact real
quotient).  This refutes the claim as stated. -/
theorem C1_base_value_full_precision_cex :
    base_MFM (6219777023950949 / 2 ^ 41) 200 ≠ base_value_exact 200 ∧
      base_MFM (6219777023950950 / 2 ^ 41) 200 ≠ base_value_exact 200 :=
  ⟨base_MFM_200_ne_exact (6219777023950949 / 2 ^ 41) (by positivity)
      (grid_neighbor_is_double 6219777023950949 (by decide)),
    base_MFM_200_ne_exact (6219777023950950 / 2 ^ 41) (by positivity)
      (grid_neighbor_is_double 6219777023950950 (by decide))⟩

/-- Claim C8: `base_value(1) = 3` and `base_value(10) = 3`, for every
denominator the platform `pow` can produce for `1**1.5` and `10**1.5`. -/
theorem C8_base_value_examples (d1 d10 : ℚ) (h1 : PowApprox 1 d1) (h10 : PowApprox 10 d10) :
    base_MFM d1 1 = 3 ∧ base_MFM d10 10 = 3 := by
  constructor
  · rw [case_one d1 h1]
    rw [base_value_exact, if_neg (by decide)]
    norm_num [sqrt_eq_of 1 (Nat.fib (1 : ℤ).toNat ^ 2 / (1 : ℤ).toNat ^ 3) (by decide) (by decide)]
  · rw [base_MFM_eq_exact_of 10 1 (by decide) (by decide) (by decide) (by decide) d10 h10]
    rw [base_value_exact, if_neg (by decide)]
    norm_num [sqrt_eq_of 1 (Nat.fib (10 : ℤ).toNat ^ 2 / (10 : ℤ).toNat ^ 3) (by decide) (by decide)]

/-- Witness for `C8_base_value_examples` with `d1 = 1` and `d10` a rational
within `2 ^ -48` relative error of `sqrt(1000)`. -/
theorem C8_base_value_examples_witness :
    PowApprox 1 1 ∧ PowApprox 10 (31622776601683793 / 10 ^ 15) ∧
      base_MFM 1 1 = 3 ∧ base_MFM (31622776601683793 / 10 ^ 15) 10 = 3 :=
  ⟨by decide, by rw [PowApprox, if_neg (by decide), if_neg (by decide)]; simp only [Int.reduceToNat]; norm_num,
    C8_base_value_examples 1 (31622776601683793 / 10 ^ 15) (by decide) (by rw [PowApprox, if_neg (by decide), if_neg (by decide)]; simp only [Int.reduceToNat]; norm_num)⟩

/-- Claim C9: for every integer `n < 1`, the base-value computation returns
the fallback constant `2` before any division happens, so no error can be
surfaced, whatever the denominator input. -/
theorem C9_invalid_index_fallback (d : ℚ) (n : ℤ) (h : n < 1) : base_MFM d n = 2 := by
  rw [base_MFM, if_pos h]

/-- Witness for `C9_invalid_index_fallback` at `n = 0`. -/
theorem C9_invalid_index_fallback_witness : (0 : ℤ) < 1 ∧ base_MFM 1 0 = 2 :=
  ⟨by decide, C9_invalid_index_fallback 1 0 (by decide)⟩

/-- Claim C10: every base value is at least `2`: for `n < 1` the fallback is
`2` itself, and for `n ≥ 1` the Fibonacci number is at least 1, the positive
denominator makes the quotient nonnegative, and the `+2` offset applies. -/
theorem C10_base_value_lower_bound (d : ℚ) (n : ℤ) (hd : 0 < d) : 2 ≤ base_MFM d n := by
  rw [base_MFM]
  split
  · exact le_refl 2
  · have hfloor : (0 : ℤ) ≤ ⌊(Nat.fib n.toNat : ℚ) / d⌋ := by
      rw [Int.floor_nonneg]
      positivity
    omega

/-- Witness for `C10_base_value_lower_bound` at `n = 5`, `d = 1`. -/
theorem C10_base_value_lower_bound_witness : (0 : ℚ) < 1 ∧ 2 ≤ base_MFM 1 5 :=
  ⟨by norm_num, C10_base_value_lower_bound 1 5 (by norm_num)⟩

/-! ## The primality predicate -/

/-- Claim C4: on every integer of `[-5, 30]` the code's primality predicate
matches the standard definition: false below 2, true exactly on
`{2, 3, 5, 7, 11, 13, 17, 19, 23, 29}`. -/
theorem C4_is_prime_matches (x : ℤ) (hlo : -5 ≤ x) (hhi : x ≤ 30) :
    (x < 2 → is_prime_pythonic x = false) ∧
      (is_prime_pythonic x = true ↔
        x ∈ ([2, 3, 5, 7, 11, 13, 17, 19, 23, 29] : List ℤ)) := by
  interval_cases x <;> exact ⟨by decide, by decide⟩

/-- Witness for `C4_is_prime_matches` at `x = 7`. -/
theorem C4_is_prime_matches_witness :
    (-5 : ℤ) ≤ 7 ∧ (7 : ℤ) ≤ 30 ∧
      ((7 : ℤ) < 2 → is_prime_pythonic 7 = false) ∧
      (is_prime_pythonic 7 = true ↔
        (7 : ℤ) ∈ ([2, 3, 5, 7, 11, 13, 17, 19, 23, 29] : List ℤ)) :=
  ⟨by decide, by decide, C4_is_prime_matches 7 (by decide) (by decide)⟩

/-! ## The correction synthesizer -/

/-- The rounding of `0` is `0`. -/
lemma npRound_zero : npRound 0 = 0 := by norm_num [npRound]

/-- The rounding of `1` is `1`. -/
lemma npRound_one : npRound 1 = 1 := by norm_num [npRound]

/-- Claim C5: with `K = 0` coefficients the synthesized correction is `0` at
every index (whatever the ambient random state and the platform cosine), the
state is not advanced, and adding the correction to the base values returns
the base values unchanged. -/
theorem C5_zero_coefficients (cosO : CosOracle) (st : NpRandom) (n_array : List ℤ)
    (powO : ℤ → ℚ) (h : n_array ≠ []) :
    correction_fourier cosO st n_array 0 = some (n_array.map fun _ => 0, st) ∧
      sequence_vals (n_array.map fun n => base_MFM (powO n) n) (n_array.map fun _ => 0) =
        n_array.map fun n => base_MFM (powO n) n := by
  constructor
  · rw [correction_fourier]
    simp only [lt_irrefl, and_false, if_false, Finset.range_zero, Finset.sum_empty,
      npRound_zero, np_uniform, List.range_zero, List.map_nil, Nat.add_zero]
  · rw [sequence_vals, List.zip_map']
    rw [List.map_map]
    apply List.map_congr_left
    intro a _
    simp

/-- Witness for `C5_zero_coefficients` on the singleton index list `[1]`. -/
theorem C5_zero_coefficients_witness :
    ([1] : List ℤ) ≠ [] ∧
      (correction_fourier cosO0 st0 [1] 0 = some (([1] : List ℤ).map fun _ => 0, st0) ∧
        sequence_vals (([1] : List ℤ).map fun n => base_MFM (powO0 n) n)
            (([1] : List ℤ).map fun _ => 0) =
          ([1] : List ℤ).map fun n => base_MFM (powO0 n) n) :=
  ⟨List.cons_ne_nil 1 [],
    C5_zero_coefficients cosO0 st0 [1] powO0 (List.cons_ne_nil 1 [])⟩

/-- Claim C3 (amended): the correction synthesizer of the source has no seed
parameter at all — its only inputs are `(n_array, K)` plus the ambient
global generator.  Determinism holds relative to that ambient state: if two
states yield the same next `K` draws, the coefficient vectors coincide and
the synthesized corrections coincide (the generator-state component is
dropped by `Option.map` since the two cursors may differ). -/
theorem C3_ambient_state_determinism (cosO : CosOracle) (n_array : List ℤ) (K : ℕ)
    (s t : NpRandom) (h : ∀ k < K, s.draws (s.pos + k) = t.draws (t.pos + k)) :
    (np_uniform s K).1 = (np_uniform t K).1 ∧
      (correction_fourier cosO s n_array K).map (fun p => p.1) =
        (correction_fourier cosO t n_array K).map (fun p => p.1) := by
  have hco : (np_uniform s K).1 = (np_uniform t K).1 := by
    rw [np_uniform, np_uniform]
    apply List.map_congr_left
    intro k hk
    exact h k (List.mem_range.mp hk)
  refine ⟨hco, ?_⟩
  rw [correction_fourier, correction_fourier, hco]
  by_cases hc : n_array.length = 0 ∧ 0 < K
  · rw [if_pos hc, if_pos hc]
  · rw [if_neg hc, if_neg hc]
    rfl

/-- Witness for `C3_ambient_state_determinism`: two distinct ambient states
(same draw stream, cursors 0 and 5) that agree on their next draw. -/
theorem C3_ambient_state_determinism_witness :
    (∀ k < 1, st0.draws (st0.pos + k) = (⟨fun _ => 0, 5⟩ : NpRandom).draws
      ((⟨fun _ => 0, 5⟩ : NpRandom).pos + k)) ∧
    (np_uniform st0 1).1 = (np_uniform (⟨fun _ => 0, 5⟩ : NpRandom) 1).1 ∧
      (correction_fourier cosO0 st0 [1] 1).map (fun p => p.1) =
        (correction_fourier cosO0 (⟨fun _ => 0, 5⟩ : NpRandom) [1] 1).map (fun p => p.1) :=
  ⟨fun _ _ => rfl,
    C3_ambient_state_determinism cosO0 [1] 1 st0 ⟨fun _ => 0, 5⟩ (fun _ _ => rfl)⟩

/-- Claim C3, counterexample: because `correction_fourier` has no injectable
seed, its output is not determined by `(N_MAX, K)`: with identical
`n_array = [1]` and `K = 1` but different ambient generator states, the
drawn coefficient vectors differ and so do the synthesized corrections. -/
theorem C3_ambient_state_determinism_cex :
    (np_uniform st0 1).1 ≠ (np_uniform st1 1).1 ∧
      (correction_fourier cosO0 st0 [1] 1).map (fun p => p.1) ≠
        (correction_fourier cosO0 st1 [1] 1).map (fun p => p.1) := by
  have h0 : (correction_fourier cosO0 st0 [1] 1).map (fun p => p.1) = some [0] := by
    rw [correction_fourier, if_neg (by norm_num)]
    simp [np_uniform, st0, cosO0, npRound_zero]
  have h1 : (correction_fourier cosO0 st1 [1] 1).map (fun p => p.1) = some [1] := by
    rw [correction_fourier, if_neg (by norm_num)]
    simp [np_uniform, st1, cosO0, npRound_one]
  constructor
  · simp [np_uniform, st0, st1]
  · rw [h0, h1]
    simp

/-! ## The experiment harness -/

/-- On a non-empty index list, one `K`-iteration of the sweep always
completes and records `prime_count ≤ N` together with the exact ratio
`prime_count / N`. -/
lemma run_K_spec (cosO : CosOracle) (powO : ℤ → ℚ) (n_values : List ℤ) (K : ℕ)
    (st : NpRandom) (h : n_values ≠ []) :
    ∃ pc st', pc ≤ n_values.length ∧
      run_K cosO powO n_values K st =
        some ((K, pc, (pc : ℚ) / (n_values.length : ℚ)), st') := by
  have hlen : n_values.length ≠ 0 := by
    simpa [List.length_eq_zero] using h
  rw [run_K, correction_fourier]
  rw [if_neg (by simp [hlen])]
  set corr := n_values.map fun n =>
    npRound (∑ k ∈ Finset.range K, ((np_uniform st K).1).getD k 0 * cosO k n n_values.length)
    with hcorr
  have hclen : corr.length = n_values.length := by
    rw [hcorr, List.length_map]
  have hslen : (sequence_vals (n_values.map fun n => base_MFM (powO n) n) corr).length =
      n_values.length := by
    rw [sequence_vals, List.length_map, List.length_zip, List.length_map, hclen,
      Nat.min_self]
  refine ⟨((sequence_vals (n_values.map fun n => base_MFM (powO n) n) corr).map
      is_prime_pythonic).filter (fun b => b) |>.length, (np_uniform st K).2, ?_, ?_⟩
  · calc (((sequence_vals _ corr).map is_prime_pythonic).filter (fun b => b)).length
        ≤ ((sequence_vals _ corr).map is_prime_pythonic).length :=
          List.length_filter_le _ _
      _ = n_values.length := by rw [List.length_map, hslen]
  · simp only [hslen]
    rw [if_neg hlen]

/-- Unfolding of one sweep step once the iteration's outcome is known. -/
lemma MFM_sweep_cons (cosO : CosOracle) (powO : ℤ → ℚ) (timeO : ℕ → ℚ)
    (n_values : List ℤ) (K : ℕ) (Ks : List ℕ) (st st2 : NpRandom) (i : ℕ)
    (r : ℕ × ℕ × ℚ) (hrun : run_K cosO powO n_values K st = some (r, st2)) :
    MFM_sweep cosO powO timeO n_values (K :: Ks) st i =
      match MFM_sweep cosO powO timeO n_values Ks st2 (i + 1) with
      | none => none
      | some rs => some (⟨r.1, r.2.1, r.2.2, timeO i⟩ :: rs) := by
  rw [MFM_sweep, hrun]

/-- On a non-empty index list the sweep always completes; its records carry
the configured `K` values in order, and each satisfies the exact
prime-fraction identity. -/
lemma MFM_sweep_spec (cosO : CosOracle) (powO : ℤ → ℚ) (timeO : ℕ → ℚ)
    (n_values : List ℤ) (h : n_values ≠ []) :
    ∀ (Ks : List ℕ) (st : NpRandom) (i : ℕ),
      ∃ res, MFM_sweep cosO powO timeO n_values Ks st i = some res ∧
        res.map (fun r => r.K) = Ks ∧
        ∀ r ∈ res, r.prime_count ≤ n_values.length ∧
          r.prime_fraction = (r.prime_count : ℚ) / (n_values.length : ℚ) := by
  intro Ks
  induction Ks with
  | nil =>
    intro st i
    exact ⟨[], rfl, rfl, by simp⟩
  | cons K Ks ih =>
    intro st i
    obtain ⟨pc, st', hpc, hrun⟩ := run_K_spec cosO powO n_values K st h
    obtain ⟨res, hres, hmap, hall⟩ := ih st' (i + 1)
    refine ⟨⟨K, pc, (pc : ℚ) / (n_values.length : ℚ), timeO i⟩ :: res, ?_, ?_, ?_⟩
    · rw [MFM_sweep_cons cosO powO timeO n_values K Ks st st' i _ hrun, hres]
    · rw [List.map_cons, hmap]
    · intro r hr
      rcases List.mem_cons.mp hr with hr | hr
      · subst hr
        exact ⟨hpc, rfl⟩
      · exact hall r hr

/-- The index list `1..N_MAX` has length `N_MAX.toNat` and is non-empty for
`N_MAX ≥ 1`. -/
lemma n_values_arr_length (N_MAX : ℤ) : (n_values_arr N_MAX).length = N_MAX.toNat := by
  rw [n_values_arr]
  simp only [List.length_map, List.length_range]

lemma n_values_arr_ne_nil (N_MAX : ℤ) (h : 1 ≤ N_MAX) : n_values_arr N_MAX ≠ [] := by
  apply List.ne_nil_of_length_pos
  rw [n_values_arr_length]
  omega

/-- Claim C2 (amended).  The original claim — the harness returns an empty
result sequence without failing whenever `N_MAX < 1` or `K_values` is empty —
holds only for the empty-`K_values` half.  With an empty index range and a
non-empty `K_values`, the first iteration raises (`correction_fourier`
divides by `N = len(n_array) = 0` in `freq = 2*pi*k/N` when `K ≥ 1`, and
even for `K = 0` the later `prime_count / float(0)` division fails), so the
run aborts with an exception instead of returning an empty list;
see `C2_empty_configuration_cex`. -/
theorem C2_empty_configuration :
    (∀ (cosO : CosOracle) (powO : ℤ → ℚ) (timeO : ℕ → ℚ) (N_MAX : ℤ) (st : NpRandom),
        MFM_main cosO powO timeO N_MAX [] st = some []) ∧
      (∀ (cosO : CosOracle) (powO : ℤ → ℚ) (timeO : ℕ → ℚ) (N_MAX : ℤ) (K : ℕ)
          (Ks : List ℕ) (st : NpRandom), N_MAX < 1 →
          MFM_main cosO powO timeO N_MAX (K :: Ks) st = none) := by
  constructor
  · intro cosO powO timeO N_MAX st
    rfl
  · intro cosO powO timeO N_MAX K Ks st hN
    have hnil : n_values_arr N_MAX = [] := by
      rw [n_values_arr, show N_MAX.toNat = 0 by omega]
      rfl
    rw [MFM_main, hnil, MFM_sweep]
    have hrk : run_K cosO powO [] K st = none := by
      cases K with
      | zero => rfl
      | succ k =>
        rw [run_K, correction_fourier, if_pos]
        exact ⟨rfl, Nat.succ_pos k⟩
    rw [hrk]

/-- Witness for `C2_empty_configuration` (second half applied at
`N_MAX = 0`, `K_values = [5]`). -/
theorem C2_empty_configuration_witness :
    MFM_main cosO0 powO0 timeO0 7 [] st0 = some [] ∧
      ((0 : ℤ) < 1 ∧ MFM_main cosO0 powO0 timeO0 0 (5 :: []) st0 = none) :=
  ⟨C2_empty_configuration.1 cosO0 powO0 timeO0 7 st0,
    by norm_num, C2_empty_configuration.2 cosO0 powO0 timeO0 0 5 [] st0 (by norm_num)⟩

/-- Claim C2, counterexample: with an empty index range (`N_MAX = 0`) and
the non-empty `K_values = [5]`, the harness does not return an empty result
sequence — it aborts with a `ZeroDivisionError` (modelled as `none`),
refuting the claim for this degenerate combination. -/
theorem C2_empty_configuration_cex :
    MFM_main cosO0 powO0 timeO0 0 [5] st0 = none ∧
      MFM_main cosO0 powO0 timeO0 0 [5] st0 ≠ some [] := by
  have hnone : MFM_main cosO0 powO0 timeO0 0 [5] st0 = none := rfl
  refine ⟨hnone, ?_⟩
  rw [hnone]
  exact fun hsome => Option.noConfusion hsome

/-- Claim C6: in any completed sweep over a non-empty index range, every
recorded `prime_fraction` equals `prime_count / N` exactly (as a rational;
the stored double is the correctly rounded image of this exact ratio), lies
in `[0, 1]`, and `prime_count` is at most `N`. -/
theorem C6_prime_fraction (cosO : CosOracle) (powO : ℤ → ℚ) (timeO : ℕ → ℚ)
    (N_MAX : ℤ) (Ks : List ℕ) (st : NpRandom) (res : List ExperimentResult)
    (hN : 1 ≤ N_MAX) (hrun : MFM_main cosO powO timeO N_MAX Ks st = some res)
    (r : ExperimentResult) (hr : r ∈ res) :
    r.prime_fraction = (r.prime_count : ℚ) / (N_MAX.toNat : ℚ) ∧
      0 ≤ r.prime_fraction ∧ r.prime_fraction ≤ 1 ∧ r.prime_count ≤ N_MAX.toNat := by
  obtain ⟨res', hres', _, hall⟩ :=
    MFM_sweep_spec cosO powO timeO (n_values_arr N_MAX) (n_values_arr_ne_nil N_MAX hN) Ks st 0
  rw [MFM_main, hres'] at hrun
  obtain rfl : res' = res := by injection hrun
  obtain ⟨hpc, hfrac⟩ := hall r hr
  rw [n_values_arr_length] at hpc hfrac
  have hNpos : (0 : ℚ) < (N_MAX.toNat : ℚ) := by
    have : 0 < N_MAX.toNat := by omega
    exact_mod_cast this
  refine ⟨hfrac, ?_, ?_, hpc⟩
  · rw [hfrac]
    positivity
  · rw [hfrac, div_le_one hNpos]
    exact_mod_cast hpc

/-- The primality flag of the concrete corrected value `3`. -/
lemma is_prime_pythonic_three : is_prime_pythonic 3 = true := by
  rw [is_prime_pythonic, if_neg (by norm_num)]
  refine decide_eq_true ?_
  rw [show (3 : ℤ).toNat = 3 from rfl]
  norm_num

/-- Concrete evaluation of the full pipeline on `N_MAX = 1`,
`K_values = [0]` with the all-zero ambient state: the single index `1` gets
base value `3` (prime), zero correction, so one result record
`(K = 0, prime_count = 1, prime_fraction = 1, time = 0)`. -/
lemma MFM_main_concrete :
    MFM_main cosO0 powO0 timeO0 1 [0] st0 = some [⟨0, 1, 1, 0⟩] := by
  have harr : n_values_arr 1 = [1] := by
    rw [n_values_arr]
    rfl
  have hbase : base_MFM (powO0 1) 1 = 3 := by
    rw [powO0, base_MFM, if_neg (by norm_num), show Nat.fib (1 : ℤ).toNat = 1 from rfl]
    norm_num
  have hcorr : correction_fourier cosO0 st0 [1] 0 = some ([0], st0) := by
    rw [correction_fourier, if_neg (by norm_num)]
    simp [np_uniform, npRound_zero]
  have hrun : run_K cosO0 powO0 [1] 0 st0 = some ((0, 1, 1), st0) := by
    rw [run_K, hcorr]
    simp only [List.map_cons, List.map_nil, hbase, sequence_vals, List.zip_cons_cons,
      List.zip_nil_right, is_prime_pythonic_three]
    rw [if_neg (by norm_num)]
    norm_num [List.filter, is_prime_pythonic_three]
  rw [MFM_main, harr, MFM_sweep_cons cosO0 powO0 timeO0 [1] 0 [] st0 st0 0 _ hrun]
  rfl

/-- Witness for `C6_prime_fraction`: the completed run with `N_MAX = 1`,
`K_values = [0]` records the single result `(0, 1, 1, 0)`. -/
theorem C6_prime_fraction_witness :
    (1 : ℤ) ≤ 1 ∧
      MFM_main cosO0 powO0 timeO0 1 [0] st0 =
        some [⟨0, 1, 1, 0⟩] ∧
      (⟨0, 1, 1, 0⟩ : ExperimentResult) ∈ [(⟨0, 1, 1, 0⟩ : ExperimentResult)] ∧
      ((⟨0, 1, 1, 0⟩ : ExperimentResult).prime_fraction =
          ((⟨0, 1, 1, 0⟩ : ExperimentResult).prime_count : ℚ) / ((1 : ℤ).toNat : ℚ) ∧
        0 ≤ (⟨0, 1, 1, 0⟩ : ExperimentResult).prime_fraction ∧
        (⟨0, 1, 1, 0⟩ : ExperimentResult).prime_fraction ≤ 1 ∧
        (⟨0, 1, 1, 0⟩ : ExperimentResult).prime_count ≤ (1 : ℤ).toNat) :=
  ⟨le_refl 1, MFM_main_concrete, List.mem_cons_self _ _,
    C6_prime_fraction cosO0 powO0 timeO0 1 [0] st0 [⟨0, 1, 1, 0⟩] (le_refl 1)
      MFM_main_concrete ⟨0, 1, 1, 0⟩ (List.mem_cons_self _ _)⟩

/-- Claim C7: for every configured `K` sequence (over a non-empty index
range) the harness completes with exactly one record per `K`, in the
configured order, and this holds identically for any two wall-clock oracles:
the output order is independent of the measured elapsed times. -/
theorem C7_output_order (cosO : CosOracle) (powO : ℤ → ℚ) (timeO timeO' : ℕ → ℚ)
    (N_MAX : ℤ) (Ks : List ℕ) (st : NpRandom) (hN : 1 ≤ N_MAX) :
    ∃ res res', MFM_main cosO powO timeO N_MAX Ks st = some res ∧
      MFM_main cosO powO timeO' N_MAX Ks st = some res' ∧
      res.map (fun r => r.K) = Ks ∧ res'.map (fun r => r.K) = Ks ∧
      res.length = Ks.length ∧ res'.length = Ks.length := by
  obtain ⟨res, hres, hmap, _⟩ :=
    MFM_sweep_spec cosO powO timeO (n_values_arr N_MAX) (n_values_arr_ne_nil N_MAX hN) Ks st 0
  obtain ⟨res', hres', hmap', _⟩ :=
    MFM_sweep_spec cosO powO timeO' (n_values_arr N_MAX) (n_values_arr_ne_nil N_MAX hN) Ks st 0
  refine ⟨res, res', hres, hres', hmap, hmap', ?_, ?_⟩
  · rw [← hmap, List.length_map]
  · rw [← hmap', List.length_map]

/-- Witness for `C7_output_order` at `N_MAX = 1`, `K_values = [2, 3]`, with
two different clock oracles. -/
theorem C7_output_order_witness :
    (1 : ℤ) ≤ 1 ∧
      ∃ res res', MFM_main cosO0 powO0 timeO0 1 [2, 3] st0 = some res ∧
        MFM_main cosO0 powO0 (fun i => (i : ℚ) + 1) 1 [2, 3] st0 = some res' ∧
        res.map (fun r => r.K) = [2, 3] ∧ res'.map (fun r => r.K) = [2, 3] ∧
        res.length = [2, 3].length ∧ res'.length = [2, 3].length :=
  ⟨le_refl 1,
    C7_output_order cosO0 powO0 timeO0 (fun i => (i : ℚ) + 1) 1 [2, 3] st0 (le_refl 1)⟩

end MFM
